import Mathlib

/-!
# Verification of `cicd/verdeployed/main.go`

Shallow embedding of the revision-resolution core of the `verdeployed`
tool: for each stage of a CodePipeline, resolve the source revision
deployed there (live revision for stages of the current execution,
historical artifact-revision lookup otherwise) and map it to version
metadata stored on a versioned S3 object.

Pointers of the AWS SDK structs are embedded as `Option`; a Go nil-pointer
dereference is modelled as the outcome `Failure.nilDeref` (a runtime
panic, carrying no handled error message), while the two `os.Exit(1)`
paths that print a message are modelled as `Failure.execFetchError` and
`Failure.metadataError`.  The remote calls `GetPipelineExecution` and
`HeadObject` are oracles passed in as functions returning `Except`.
-/

namespace Verdeployed

/-! ## The two regular expressions of the source

`urlRe  = https://.*aws\.amazon\.com/s3/home\?region=[a-zA-Z]{2,3}-[a-zA-Z]+-[0-9]+#`
`revRe  = Amazon S3 version id: .*`

Go's `MatchString` is an unanchored existence test, so `revRe` matches a
string iff it contains the literal `Amazon S3 version id: ` (the trailing
`.*` can be empty), and `urlRe` matches iff the string contains
`https://`, then (over non-newline characters, since `.` excludes `\n`)
the literal `aws.amazon.com/s3/home?region=`, then 2-3 ASCII letters, a
dash, one or more letters, a dash, one or more digits, and a `#`. -/

/-- Characters matched by the regex class `[a-zA-Z]`. -/
def isAsciiAlpha (c : Char) : Bool :=
  ('a' ≤ c && c ≤ 'z') || ('A' ≤ c && c ≤ 'Z')

/-- Characters matched by the regex class `[0-9]`. -/
def isAsciiDigit (c : Char) : Bool :=
  '0' ≤ c && c ≤ '9'

/-- Does `l` begin with `[a-zA-Z]{2,3}-[a-zA-Z]+-[0-9]+#` (followed by
anything)?  Because each bounded/unbounded run is delimited by a
non-member character, a match exists iff the maximal leading alpha run
has length 2 or 3, is followed by `-`, a nonempty alpha run, `-`, a
nonempty digit run and `#`. -/
def regionMatch (l : List Char) : Bool :=
  let r1 := l.takeWhile isAsciiAlpha
  ((r1.length == 2) || (r1.length == 3)) &&
  (match l.drop r1.length with
   | '-' :: l2 =>
     let r2 := l2.takeWhile isAsciiAlpha
     (!r2.isEmpty) &&
     (match l2.drop r2.length with
      | '-' :: l3 =>
        let r3 := l3.takeWhile isAsciiDigit
        (!r3.isEmpty) &&
        (match l3.drop r3.length with
         | '#' :: _ => true
         | _ => false)
      | _ => false)
   | _ => false)

/-- The literal part of `urlRe` that follows the `.*`. -/
def urlLit : List Char := "aws.amazon.com/s3/home?region=".toList

/-- Scan the part after `https://` for `urlLit ++ region-pattern`,
moving only across non-newline characters (the `.*` of the regex). -/
def midScan : List Char → Bool
  | [] => false
  | l@(c :: rest) =>
    (urlLit.isPrefixOf l && regionMatch (l.drop urlLit.length))
    || (c != '\n' && midScan rest)

/-- The literal `https://` opening `urlRe`. -/
def httpsLit : List Char := "https://".toList

/-- Unanchored scan for the whole of `urlRe`. -/
def urlScan : List Char → Bool
  | [] => false
  | l@(_ :: rest) =>
    (httpsLit.isPrefixOf l && midScan (l.drop httpsLit.length))
    || urlScan rest

/-- `urlRe.MatchString s`. -/
def urlReMatch (s : String) : Bool := urlScan s.toList

/-- The literal of `revRe` before the `.*`. -/
def revLit : List Char := "Amazon S3 version id: ".toList

/-- Does `l` contain `pat` as a contiguous sublist? -/
def containsSub (pat : List Char) : List Char → Bool
  | [] => pat.isEmpty
  | l@(_ :: rest) => pat.isPrefixOf l || containsSub pat rest

/-- `revRe.MatchString s`: `s` contains `Amazon S3 version id: `. -/
def revReMatch (s : String) : Bool := containsSub revLit s.toList

/-! ## Data model (AWS SDK structs; pointers as `Option`) -/

/-- `codepipeline.ActionRevision` (only the field the program reads). -/
structure ActionRevision where
  revisionId : Option String
deriving DecidableEq, Repr

/-- `codepipeline.ActionState` (only the fields the program reads). -/
structure ActionState where
  entityUrl : Option String
  currentRevision : Option ActionRevision
deriving DecidableEq, Repr

/-- `codepipeline.StageExecution`. -/
structure StageExecution where
  pipelineExecutionId : Option String
  status : Option String
deriving DecidableEq, Repr

/-- `codepipeline.StageState`. -/
structure StageState where
  stageName : Option String
  actionStates : List ActionState
  latestExecution : Option StageExecution
deriving DecidableEq, Repr

/-- `codepipeline.ArtifactRevision` (only the fields the program reads). -/
structure ArtifactRevision where
  revisionId : Option String
  revisionSummary : Option String
deriving DecidableEq, Repr

/-- `codepipeline.PipelineExecution` (only the field the program reads). -/
structure PipelineExecution where
  artifactRevisions : List ArtifactRevision
deriving DecidableEq, Repr

/-- The `stageDetails` record built in `main` for each stage
(the DeploymentRecord of the specification). -/
structure StageDetails where
  name : String
  executionId : String
  status : String
  revisionId : String
  versionDeployed : String
  commit : String
deriving DecidableEq, Repr

/-- How one iteration of the stage loop of `main` can abort. -/
inductive Failure where
  /-- A Go nil-pointer dereference: runtime panic, uncontrolled crash,
  no handled error message is printed. -/
  | nilDeref : Failure
  /-- `GetPipelineExecution` returned an error: `main` prints it and
  calls `os.Exit(1)`. -/
  | execFetchError : String → Failure
  /-- `getMetadataFromRevision` returned an error: `main` prints
  `get metadata from file revision: ...` and calls `os.Exit(1)`. -/
  | metadataError : String → Failure
deriving DecidableEq, Repr

/-- The mutable pair `var execId, revid string` of `main`
(both start as the empty string, Go's zero value). -/
structure LoopSt where
  execId : String
  revid : String
deriving DecidableEq, Repr

/-! ## The program -/

/-- The inner action loop of the `Source` branch of `main`:

```go
for _, astate := range stage.ActionStates {
    if urlRe.MatchString(*astate.EntityUrl) {
        revid = *astate.CurrentRevision.RevisionId
        break
    }
}
```

`revid` keeps its previous value when no action matches; dereferencing a
nil `EntityUrl`, `CurrentRevision` or `RevisionId` panics. -/
def sourceScan : List ActionState → String → Except Failure String
  | [], revid => .ok revid
  | a :: rest, revid =>
    match a.entityUrl with
    | none => .error .nilDeref
    | some url =>
      if urlReMatch url then
        match a.currentRevision with
        | none => .error .nilDeref
        | some cr =>
          match cr.revisionId with
          | none => .error .nilDeref
          | some r => .ok r
      else
        sourceScan rest revid

/-- `execId = *stage.LatestExecution.PipelineExecutionId`
(the Execution Epoch Tracker of the specification). -/
def epochOf (stage : StageState) : Except Failure String :=
  match stage.latestExecution with
  | none => .error .nilDeref
  | some le =>
    match le.pipelineExecutionId with
    | none => .error .nilDeref
    | some e => .ok e

/-- The two dereferences that build `details`:
`*stage.LatestExecution.PipelineExecutionId` and
`*stage.LatestExecution.Status`. -/
def stageIds (stage : StageState) : Except Failure (String × String) :=
  match stage.latestExecution with
  | none => .error .nilDeref
  | some le =>
    match le.pipelineExecutionId with
    | none => .error .nilDeref
    | some e =>
      match le.status with
      | none => .error .nilDeref
      | some st => .ok (e, st)

/-- The `if *stage.StageName == "Source"` branch of `main`: scan the
actions for the live revision and record the current execution id.
For any other stage the pair `(execId, revid)` is left unchanged. -/
def srcUpdate (s : LoopSt) (stage : StageState) (name : String) :
    Except Failure LoopSt :=
  if name == "Source" then
    match sourceScan stage.actionStates s.revid with
    | .error e => .error e
    | .ok r =>
      match epochOf stage with
      | .error e => .error e
      | .ok e => .ok ⟨e, r⟩
  else
    .ok s

/-- The artifact-revision loop of the historical branch of `main`
(the Historical Revision Resolver of the specification):

```go
for _, revision := range execution.PipelineExecution.ArtifactRevisions {
    if revRe.MatchString(*revision.RevisionSummary) {
        details.revisionId = *revision.RevisionId
    }
}
```

Note there is no `break`: every matching revision overwrites
`details.revisionId`, so the LAST match is kept.  `acc` is the value of
`details.revisionId` entering the loop (the empty string in `main`). -/
def scanRevisions : List ArtifactRevision → String → Except Failure String
  | [], acc => .ok acc
  | r :: rest, acc =>
    match r.revisionSummary with
    | none => .error .nilDeref
    | some s =>
      if revReMatch s then
        match r.revisionId with
        | none => .error .nilDeref
        | some rid => scanRevisions rest rid
      else
        scanRevisions rest acc

/-- The per-stage revision decision of `main` (the Revision Resolver of
the specification): reuse `revid` when the stage's execution id equals
`execId`, otherwise call `GetPipelineExecution` (the oracle `fexec`) and
scan its artifact revisions.  Also returns the list of execution ids
that were queried historically (empty or a singleton). -/
def resolveRevision (fexec : String → Except String PipelineExecution)
    (s : LoopSt) (eid : String) : Except Failure (String × List String) :=
  if s.execId == eid then
    .ok (s.revid, [])
  else
    match fexec eid with
    | .error m => .error (.execFetchError m)
    | .ok pe =>
      match scanRevisions pe.artifactRevisions "" with
      | .error e => .error e
      | .ok rid => .ok (rid, [eid])

/-- `getMetadataFromRevision`: call `HeadObject` (the oracle `fmeta`,
already specialised to the configured bucket and key) with the revision
id as the S3 version id; on an SDK error return the wrapped message
(all SDK errors are modelled through the `awserr` branch of the source).
The metadata map `map[string]*string` is modelled as an association
list; a key that is absent or maps to a nil pointer is modelled alike
as an absent key, since the program treats both by dereferencing nil. -/
def getMetadataFromRevision
    (fmeta : String → Except String (List (String × String)))
    (ver : String) : Except String (List (String × String)) :=
  match fmeta ver with
  | .error m => .error ("failed to retrieve version metadata: " ++ m)
  | .ok r => .ok r

/-- The metadata step of `main`: fetch the metadata for the resolved
revision id, then execute `*meta["Version"]` and `*meta["Commit"]` — a
missing entry is a nil-map-entry dereference, i.e. a panic. -/
def metaFields (fmeta : String → Except String (List (String × String)))
    (rid : String) : Except Failure (String × String) :=
  match getMetadataFromRevision fmeta rid with
  | .error m => .error (.metadataError ("get metadata from file revision: " ++ m))
  | .ok meta =>
    match meta.lookup "Version" with
    | none => .error .nilDeref
    | some v =>
      match meta.lookup "Commit" with
      | none => .error .nilDeref
      | some c => .ok (v, c)

/-- One iteration of `for _, stage := range state.StageStates` in `main`:
dereference the stage name, run the `Source` branch, build `details`,
resolve the revision, fetch and project the metadata.  Returns the
stage's `stageDetails`, the updated `(execId, revid)` pair, and the
execution ids queried historically during this iteration. -/
def processStage (fexec : String → Except String PipelineExecution)
    (fmeta : String → Except String (List (String × String)))
    (s : LoopSt) (stage : StageState) :
    Except Failure (StageDetails × LoopSt × List String) :=
  match stage.stageName with
  | none => .error .nilDeref
  | some name =>
    match srcUpdate s stage name with
    | .error e => .error e
    | .ok s1 =>
      match stageIds stage with
      | .error e => .error e
      | .ok (eid, status) =>
        match resolveRevision fexec s1 eid with
        | .error e => .error e
        | .ok (rid, q) =>
          match metaFields fmeta rid with
          | .error e => .error e
          | .ok (v, c) =>
            .ok (⟨name, eid, status, rid, v, c⟩, s1, q)

/-- The stage loop of `main`, threading `(execId, revid)` and collecting
the per-stage `stageDetails` rows in order, together with the list of
historically queried execution ids.  (The Go program prints each row as
it is produced; a failure aborts the process, so the completed-run
result is the full ordered row list.) -/
def runStages (fexec : String → Except String PipelineExecution)
    (fmeta : String → Except String (List (String × String))) :
    LoopSt → List StageState → Except Failure (List StageDetails × List String)
  | _, [] => .ok ([], [])
  | s, stage :: rest =>
    match processStage fexec fmeta s stage with
    | .error e => .error e
    | .ok (d, s1, q) =>
      match runStages fexec fmeta s1 rest with
      | .error e => .error e
      | .ok (ds, qs) => .ok (d :: ds, q ++ qs)

/-- The whole resolver run of `main` over a pipeline-state snapshot:
`execId` and `revid` start as empty strings (Go zero values). -/
def runPipeline (fexec : String → Except String PipelineExecution)
    (fmeta : String → Except String (List (String × String)))
    (stages : List StageState) :
    Except Failure (List StageDetails × List String) :=
  runStages fexec fmeta ⟨"", ""⟩ stages

/-- Does an action's entity URL match `urlRe`?  (A nil URL does not
match; `sourceScan` panics on it before testing, which the theorems
exclude by hypothesis where needed.) -/
def actionMatches (a : ActionState) : Bool :=
  match a.entityUrl with
  | some url => urlReMatch url
  | none => false

/-- Does an artifact revision's summary match `revRe`?  (A nil summary
does not match; `scanRevisions` panics on it, excluded by hypothesis.) -/
def revisionMatches (r : ArtifactRevision) : Bool :=
  match r.revisionSummary with
  | some s => revReMatch s
  | none => false

/-! ## Concrete snapshots and oracles used in counterexamples and witnesses -/

/-- A console URL matched by `urlRe`. -/
def demoUrl : String := "https://s3.console.aws.amazon.com/s3/home?region=us-east-1#"

/-- Snapshot in which the stage `Deploy` PRECEDES the `Source` stage and
shares its execution id `E2`. -/
def cexStagesE2 : List StageState :=
  [⟨some "Deploy", [], some ⟨some "E2", some "Succeeded"⟩⟩,
   ⟨some "Source", [⟨some demoUrl, some ⟨some "R1"⟩⟩],
    some ⟨some "E2", some "Succeeded"⟩⟩]

/-- `GetPipelineExecution` oracle: execution `E2` recorded revision `R0`. -/
def cexExecE2 : String → Except String PipelineExecution := fun e =>
  if e == "E2" then .ok ⟨[⟨some "R0", some "Amazon S3 version id: R0"⟩]⟩
  else .error "execution not found"

/-- `HeadObject` oracle: every version carries full metadata. -/
def cexMetaAll : String → Except String (List (String × String)) := fun _ =>
  .ok [("Version", "2.3.0"), ("Commit", "abc123")]

/-- Snapshot in which the stage `A` PRECEDES the `Source` stage and
shares its execution id `E1`. -/
def cexStagesE1 : List StageState :=
  [⟨some "A", [], some ⟨some "E1", some "Succeeded"⟩⟩,
   ⟨some "Source", [⟨some demoUrl, some ⟨some "R1"⟩⟩],
    some ⟨some "E1", some "Succeeded"⟩⟩]

/-- `GetPipelineExecution` oracle: execution `E1` recorded revision `R0`. -/
def cexExecE1 : String → Except String PipelineExecution := fun e =>
  if e == "E1" then .ok ⟨[⟨some "R0", some "Amazon S3 version id: R0"⟩]⟩
  else .error "execution not found"

/-- `HeadObject` oracle: metadata present for every version. -/
def cexMetaC5 : String → Except String (List (String × String)) := fun _ =>
  .ok [("Version", "1.0.0"), ("Commit", "c0")]

/-- `HeadObject` oracle for which version `R1` exists but its metadata
lacks the `Version` key. -/
def bugMetaNoVersion : String → Except String (List (String × String)) := fun v =>
  if v == "R1" then .ok [("Commit", "abc123")] else .error "no such version"

/-- `GetPipelineExecution` oracle: execution `E0` recorded revision `R0`. -/
def witExecE0 : String → Except String PipelineExecution := fun e =>
  if e == "E0" then .ok ⟨[⟨some "R0", some "Amazon S3 version id: R0"⟩]⟩
  else .error "execution not found"

/-- `HeadObject` oracle whose metadata always lacks the `Version` key. -/
def cexMetaNoVersion : String → Except String (List (String × String)) := fun _ =>
  .ok [("Commit", "abc123")]

/-- `HeadObject` oracle that always fails. -/
def errMeta : String → Except String (List (String × String)) := fun _ =>
  .error "AccessDenied"

/-- The revision id selected by the last-match policy of the historical
scan: the id of the LAST revision of `revs` whose summary matches
`revRe`, or `acc` when none matches. -/
def lastMatchId (revs : List ArtifactRevision) (acc : String) : String :=
  (((revs.filter revisionMatches).getLast?).map
    (fun r => r.revisionId.getD "")).getD acc

/-! ## Helper lemmas -/

/-- When no action's URL matches `urlRe` (and no URL pointer is nil),
the action loop leaves `revid` unchanged. -/
theorem sourceScan_no_match {actions : List ActionState} {rv : String}
    (hurl : ∀ a ∈ actions, a.entityUrl ≠ none)
    (hmiss : actions.find? actionMatches = none) :
    sourceScan actions rv = .ok rv := by
  induction actions with
  | nil => rfl
  | cons x rest ih =>
    obtain ⟨url, hx⟩ := Option.ne_none_iff_exists'.mp (hurl x (List.mem_cons_self x rest))
    rw [List.find?_cons] at hmiss
    cases hax : actionMatches x with
    | true => rw [hax] at hmiss; cases hmiss
    | false =>
      rw [hax] at hmiss
      have hm : urlReMatch url = false := by
        unfold actionMatches at hax
        rwa [hx] at hax
      simp only [sourceScan, hx, hm, Bool.false_eq_true, if_false]
      exact ih (fun a ha => hurl a (List.mem_cons_of_mem x ha)) hmiss

/-- When the first URL-matching action is `a` (and no URL pointer up to
it is nil), the action loop dereferences exactly `a`'s current
revision: it panics when `a.currentRevision` (or its id) is nil and
returns the id otherwise, never inspecting later actions. -/
theorem sourceScan_found {actions : List ActionState} {a : ActionState} {rv : String}
    (hurl : ∀ x ∈ actions, x.entityUrl ≠ none)
    (hfind : actions.find? actionMatches = some a) :
    sourceScan actions rv =
      (match a.currentRevision with
       | none => .error .nilDeref
       | some cr =>
         match cr.revisionId with
         | none => .error .nilDeref
         | some r => .ok r) := by
  induction actions with
  | nil => cases hfind
  | cons x rest ih =>
    obtain ⟨url, hx⟩ := Option.ne_none_iff_exists'.mp (hurl x (List.mem_cons_self x rest))
    rw [List.find?_cons] at hfind
    cases hax : actionMatches x with
    | true =>
      rw [hax] at hfind
      cases hfind
      have hm : urlReMatch url = true := by
        unfold actionMatches at hax
        rwa [hx] at hax
      simp only [sourceScan, hx, hm, if_true]
    | false =>
      rw [hax] at hfind
      have hm : urlReMatch url = false := by
        unfold actionMatches at hax
        rwa [hx] at hax
      simp only [sourceScan, hx, hm, Bool.false_eq_true, if_false]
      exact ih (fun y hy => hurl y (List.mem_cons_of_mem x hy)) hfind

/-- Inversion for `stageIds`: success pins down the `latestExecution`
pointer chain. -/
theorem stageIds_ok {stage : StageState} {e st : String}
    (h : stageIds stage = .ok (e, st)) :
    stage.latestExecution = some ⟨some e, some st⟩ := by
  unfold stageIds at h
  split at h
  · cases h
  · rename_i le hle
    split at h
    · cases h
    · rename_i e0 hid
      split at h
      · cases h
      · rename_i st0 hst
        cases h
        rw [hle]
        cases le
        simp only [] at hid hst
        simp [hid, hst]

/-- Inversion for `resolveRevision`: either the stage belongs to the
current epoch (no historical query, `revid` reused) or exactly one
historical query was made and its revision scan succeeded. -/
theorem resolveRevision_ok {fe : String → Except String PipelineExecution}
    {s : LoopSt} {eid rid : String} {q : List String}
    (h : resolveRevision fe s eid = .ok (rid, q)) :
    (eid = s.execId ∧ rid = s.revid ∧ q = []) ∨
    (eid ≠ s.execId ∧ q = [eid] ∧
     ∃ pe, fe eid = .ok pe ∧ scanRevisions pe.artifactRevisions "" = .ok rid) := by
  unfold resolveRevision at h
  split at h
  · rename_i hbeq
    cases h
    exact Or.inl ⟨(beq_iff_eq.mp hbeq).symm, rfl, rfl⟩
  · rename_i hbeq
    have hne : eid ≠ s.execId := fun hc => hbeq (by simp [hc])
    split at h
    · cases h
    · rename_i pe hfe
      split at h
      · cases h
      · rename_i rid0 hsc
        cases h
        exact Or.inr ⟨hne, rfl, pe, hfe, hsc⟩

/-- A successful stage iteration names its record after the stage. -/
theorem processStage_ok_name {fe : String → Except String PipelineExecution}
    {fm : String → Except String (List (String × String))}
    {s : LoopSt} {stage : StageState}
    {d : StageDetails} {s1 : LoopSt} {q : List String}
    (h : processStage fe fm s stage = .ok (d, s1, q)) :
    stage.stageName = some d.name := by
  unfold processStage at h
  split at h
  · cases h
  · rename_i name hname
    split at h
    · cases h
    · rename_i s1' hsrc
      split at h
      · cases h
      · rename_i eid status hids
        split at h
        · cases h
        · rename_i rid q' hrr
          split at h
          · cases h
          · rename_i v c hmf
            cases h
            exact hname

/-- Characterisation of a successful iteration on a stage that is not
named `Source`: the `(execId, revid)` pair is untouched, and the
record's revision either reuses `revid` (no historical query, when the
stage's execution id equals `execId`) or is the result of exactly one
historical query for the stage's own execution id. -/
theorem processStage_nonSource {fe : String → Except String PipelineExecution}
    {fm : String → Except String (List (String × String))}
    {s : LoopSt} {stage : StageState}
    {d : StageDetails} {s1 : LoopSt} {q : List String}
    (hn : stage.stageName ≠ some "Source")
    (h : processStage fe fm s stage = .ok (d, s1, q)) :
    s1 = s ∧ stage.stageName = some d.name ∧
    ((d.executionId = s.execId ∧ d.revisionId = s.revid ∧ q = []) ∨
     (d.executionId ≠ s.execId ∧ q = [d.executionId] ∧
      ∃ pe, fe d.executionId = .ok pe ∧
        scanRevisions pe.artifactRevisions "" = .ok d.revisionId)) := by
  unfold processStage at h
  split at h
  · cases h
  · rename_i name hname
    have hnsrc : name ≠ "Source" := fun hc => hn (hc ▸ hname)
    split at h
    · cases h
    · rename_i s1' hsrc
      have hs1 : s1' = s := by
        unfold srcUpdate at hsrc
        rw [if_neg (by simp [hnsrc])] at hsrc
        cases hsrc
        rfl
      subst hs1
      split at h
      · cases h
      · rename_i eid status hids
        split at h
        · cases h
        · rename_i rid q' hrr
          split at h
          · cases h
          · rename_i v c hmf
            cases h
            refine ⟨rfl, hname, ?_⟩
            rcases resolveRevision_ok hrr with ⟨h1, h2, h3⟩ | ⟨h1, h2, h3⟩
            · exact Or.inl ⟨h1, h2, h3⟩
            · exact Or.inr ⟨h1, h2, h3⟩

/-- Characterisation of a successful iteration on the `Source` stage:
the live revision comes from the action scan, the epoch is recorded,
and no historical query is made (the stage's own execution id always
equals the just-recorded epoch). -/
theorem processStage_source {fe : String → Except String PipelineExecution}
    {fm : String → Except String (List (String × String))}
    {s : LoopSt} {stage : StageState}
    {d : StageDetails} {s1 : LoopSt} {q : List String}
    (hname : stage.stageName = some "Source")
    (h : processStage fe fm s stage = .ok (d, s1, q)) :
    d.name = "Source" ∧ q = [] ∧
    s1 = ⟨d.executionId, d.revisionId⟩ ∧
    sourceScan stage.actionStates s.revid = .ok d.revisionId := by
  unfold processStage at h
  split at h
  · cases h
  · rename_i name hname0
    have hn : name = "Source" := by
      rw [hname0] at hname
      exact Option.some_inj.mp hname
    subst hn
    split at h
    · cases h
    · rename_i s1' hsrc
      unfold srcUpdate at hsrc
      rw [if_pos (by simp)] at hsrc
      split at hsrc
      · cases hsrc
      · rename_i r hscan
        split at hsrc
        · cases hsrc
        · rename_i e hep
          cases hsrc
          split at h
          · cases h
          · rename_i eid status hids
            have he : e = eid := by
              have hle := stageIds_ok hids
              unfold epochOf at hep
              rw [hle] at hep
              cases hep
              rfl
            subst he
            split at h
            · cases h
            · rename_i rid q' hrr
              have hrr' : rid = r ∧ q' = [] := by
                unfold resolveRevision at hrr
                rw [if_pos (by simp)] at hrr
                cases hrr
                exact ⟨rfl, rfl⟩
              obtain ⟨hrid, hq⟩ := hrr'
              subst hrid
              subst hq
              split at h
              · cases h
              · rename_i v c hmf
                cases h
                exact ⟨rfl, rfl, rfl, hscan⟩

/-- Master lemma for a run segment that contains no `Source` stage: the
`(execId, revid)` pair stays `s` throughout, the records mirror the
stages in order, the historical-query log holds exactly the execution
ids differing from `s.execId`, and each record's revision is either the
inherited `s.revid` or the scan of its own execution's revisions. -/
theorem runStages_noSource {fe : String → Except String PipelineExecution}
    {fm : String → Except String (List (String × String))} :
    ∀ {stages : List StageState} {s : LoopSt} {recs : List StageDetails}
      {log : List String},
      (∀ st ∈ stages, st.stageName ≠ some "Source") →
      runStages fe fm s stages = .ok (recs, log) →
      stages.map StageState.stageName = recs.map (fun d => some d.name) ∧
      log = (recs.filter (fun d => d.executionId != s.execId)).map
              (fun d => d.executionId) ∧
      ∀ d ∈ recs,
        (d.executionId = s.execId → d.revisionId = s.revid) ∧
        (d.executionId ≠ s.execId →
          ∃ pe, fe d.executionId = .ok pe ∧
            scanRevisions pe.artifactRevisions "" = .ok d.revisionId) := by
  intro stages
  induction stages with
  | nil =>
    intro s recs log _ h
    cases h
    exact ⟨rfl, rfl, by simp⟩
  | cons st rest ih =>
    intro s recs log hns h
    unfold runStages at h
    split at h
    · cases h
    · rename_i d s1 q hps
      split at h
      · cases h
      · rename_i ds qs hrs
        cases h
        obtain ⟨hs1, hname, hdisj⟩ :=
          processStage_nonSource (hns st (List.mem_cons_self st rest)) hps
        subst hs1
        obtain ⟨hmap, hlog, hall⟩ :=
          ih (fun x hx => hns x (List.mem_cons_of_mem st hx)) hrs
        refine ⟨by simp [hname, hmap], ?_, ?_⟩
        · rcases hdisj with ⟨heq, _, hq⟩ | ⟨hne, hq, _⟩
          · subst hq
            simp [List.filter_cons, heq, hlog]
          · subst hq
            simp [List.filter_cons, bne_iff_ne.mpr hne, hlog]
        · intro d' hd'
          rcases List.mem_cons.mp hd' with hd' | hd'
          · subst hd'
            rcases hdisj with ⟨heq, hrev, _⟩ | ⟨hne, _, hex⟩
            · exact ⟨fun _ => hrev, fun hc => absurd heq hc⟩
            · exact ⟨fun hc => absurd hc hne, fun _ => hex⟩
          · exact hall d' hd'

/-- Every completed run emits one record per stage, in stage order. -/
theorem runStages_shape {fe : String → Except String PipelineExecution}
    {fm : String → Except String (List (String × String))} :
    ∀ {stages : List StageState} {s : LoopSt} {recs : List StageDetails}
      {log : List String},
      runStages fe fm s stages = .ok (recs, log) →
      recs.length = stages.length ∧
      stages.map StageState.stageName = recs.map (fun d => some d.name) := by
  intro stages
  induction stages with
  | nil =>
    intro s recs log h
    cases h
    exact ⟨rfl, rfl⟩
  | cons st rest ih =>
    intro s recs log h
    unfold runStages at h
    split at h
    · cases h
    · rename_i d s1 q hps
      split at h
      · cases h
      · rename_i ds qs hrs
        cases h
        obtain ⟨hlen, hmap⟩ := ih hrs
        exact ⟨by simp [hlen], by simp [processStage_ok_name hps, hmap]⟩

/-! ## Claims -/

/-- C7 (counterexample): when the source stage's execution id is absent
(`LatestExecution` is nil, or its `PipelineExecutionId` is nil), the
Execution Epoch Tracker does not propagate a handled error — it crashes
with a nil-pointer dereference (`Failure.nilDeref` models the Go
runtime panic, not a surfaced error). -/
theorem epoch_absent_panic_cex :
    epochOf ⟨some "Source", [], none⟩ = .error .nilDeref ∧
    epochOf ⟨some "Source", [], some ⟨none, some "Succeeded"⟩⟩ =
      .error .nilDeref := by
  exact ⟨rfl, rfl⟩

/-- C7 (amended): for the stage named `Source`, the Execution Epoch
Tracker returns its latest execution id as the current epoch when that
id is present; when the `LatestExecution` pointer or its execution id
is absent the program panics with a nil-pointer dereference (it does
not propagate a handled error). -/
theorem epoch_tracker_behaviour (st : StageState) :
    (∀ le e, st.latestExecution = some le → le.pipelineExecutionId = some e →
      epochOf st = .ok e) ∧
    (st.latestExecution = none → epochOf st = .error .nilDeref) ∧
    (∀ le, st.latestExecution = some le → le.pipelineExecutionId = none →
      epochOf st = .error .nilDeref) := by
  refine ⟨?_, ?_, ?_⟩
  · intro le e hle hid
    simp [epochOf, hle, hid]
  · intro hle
    simp [epochOf, hle]
  · intro le hle hid
    simp [epochOf, hle, hid]

/-- Witness for C7's amended theorem at a concrete source stage. -/
theorem epoch_tracker_behaviour_witness :
    epochOf ⟨some "Source", [], some ⟨some "E1", some "Succeeded"⟩⟩ =
      .ok "E1" :=
  (epoch_tracker_behaviour _).1 _ _ rfl rfl

/-- C4 (code bug): when the metadata fetched for a revision lacks the
required `Version` (or `Commit`) field, `main` executes
`*meta["Version"]` / `*meta["Commit"]` on a nil map entry and panics
(`Failure.nilDeref`) — it does not surface a lookup error naming the
missing field as the specification requires. -/
theorem metadata_missing_field_panics :
    metaFields bugMetaNoVersion "R1" = .error .nilDeref ∧
    metaFields (fun _ => .ok [("Version", "2.3.0")]) "R1" =
      .error .nilDeref := by
  exact ⟨rfl, rfl⟩

/-- C8: the resolver is deterministic — two runs over equal snapshots
with external fetches returning equal responses produce equal outcomes
(in particular equal DeploymentRecord sequences). -/
theorem resolver_idempotent
    (fe1 fe2 : String → Except String PipelineExecution)
    (fm1 fm2 : String → Except String (List (String × String)))
    (st1 st2 : List StageState)
    (hfe : ∀ e, fe1 e = fe2 e) (hfm : ∀ v, fm1 v = fm2 v) (hst : st1 = st2) :
    runPipeline fe1 fm1 st1 = runPipeline fe2 fm2 st2 := by
  rw [funext hfe, funext hfm, hst]

/-- Witness for C8 at a concrete snapshot and oracles. -/
theorem resolver_idempotent_witness :
    runPipeline cexExecE1 cexMetaC5 cexStagesE1 =
      runPipeline cexExecE1 cexMetaC5 cexStagesE1 :=
  resolver_idempotent _ _ _ _ _ _ (fun _ => rfl) (fun _ => rfl) rfl

/-- C6: the Revision Extractor scans the source stage's actions in list
order; it yields the revision id of the first action whose entity URL
matches `urlRe` (when that action carries a revision id), and yields
the empty revision id when no action's URL matches.  (URL pointers are
assumed present; a nil one would panic first, see C10.) -/
theorem revision_extractor_first_match (actions : List ActionState)
    (hurl : ∀ a ∈ actions, a.entityUrl ≠ none) :
    (actions.find? actionMatches = none → sourceScan actions "" = .ok "") ∧
    (∀ a r, actions.find? actionMatches = some a →
      a.currentRevision = some ⟨some r⟩ → sourceScan actions "" = .ok r) := by
  refine ⟨fun hmiss => sourceScan_no_match hurl hmiss, ?_⟩
  intro a r hfind hcr
  rw [sourceScan_found hurl hfind, hcr]

/-- Witness for C6: the second action is the first URL match and its
revision id `R7` is extracted; with no matching action the extractor
yields the empty string. -/
theorem revision_extractor_first_match_witness :
    sourceScan [⟨some "https://example.com/x", some ⟨some "RX"⟩⟩,
                ⟨some demoUrl, some ⟨some "R7"⟩⟩] "" = .ok "R7" :=
  (revision_extractor_first_match _ (by decide)).2
    ⟨some demoUrl, some ⟨some "R7"⟩⟩ "R7" (by decide) rfl

/-- C10 (counterexample): an action whose URL matches but that comes
AFTER the first matching action is never dereferenced — here the second
action matches and carries a nil `CurrentRevision`, yet the scan
returns the first action's revision without panicking.  So it is not
true that the program dereferences every URL-matching action's
`CurrentRevision`, nor is `every URL-matching action has a
CurrentRevision` required for non-crashing behaviour. -/
theorem later_match_not_dereferenced_cex :
    sourceScan [⟨some demoUrl, some ⟨some "R1"⟩⟩,
                ⟨some demoUrl, none⟩] "" = .ok "R1" := by
  rfl

/-- C10 (amended): `main` dereferences only the FIRST URL-matching
action's `CurrentRevision`, without a nil check: whenever the first
matching action carries no `CurrentRevision` (or a nil `RevisionId`),
the program panics with a nil-pointer dereference instead of reporting
an error. -/
theorem first_match_nil_revision_panics (actions : List ActionState)
    (a : ActionState) (rv : String)
    (hurl : ∀ x ∈ actions, x.entityUrl ≠ none)
    (hfind : actions.find? actionMatches = some a)
    (hnil : a.currentRevision = none ∨ a.currentRevision = some ⟨none⟩) :
    sourceScan actions rv = .error .nilDeref := by
  rw [sourceScan_found hurl hfind]
  rcases hnil with hnil | hnil <;> rw [hnil]

/-- Witness for C10's amended theorem: a single matching action with a
nil `CurrentRevision` makes the scan panic. -/
theorem first_match_nil_revision_panics_witness :
    sourceScan [⟨some demoUrl, none⟩] "" = .error .nilDeref :=
  first_match_nil_revision_panics _ ⟨some demoUrl, none⟩ ""
    (by decide) (by decide) (Or.inl rfl)

/-- The historical scan keeps the id of the last matching revision
(pointer hypotheses: summaries are present, and every matching revision
carries an id — otherwise the loop would panic on it). -/
theorem scanRevisions_eq_lastMatchId :
    ∀ (revs : List ArtifactRevision) (acc : String),
      (∀ r ∈ revs, r.revisionSummary ≠ none) →
      (∀ r ∈ revs, revisionMatches r = true → r.revisionId ≠ none) →
      scanRevisions revs acc = .ok (lastMatchId revs acc) := by
  intro revs
  induction revs with
  | nil => intro acc _ _; rfl
  | cons r rest ih =>
    intro acc hs hid
    obtain ⟨s, hsum⟩ :=
      Option.ne_none_iff_exists'.mp (hs r (List.mem_cons_self r rest))
    have hs' : ∀ x ∈ rest, x.revisionSummary ≠ none :=
      fun x hx => hs x (List.mem_cons_of_mem r hx)
    have hid' : ∀ x ∈ rest, revisionMatches x = true → x.revisionId ≠ none :=
      fun x hx => hid x (List.mem_cons_of_mem r hx)
    cases hm : revReMatch s with
    | true =>
      have hrm : revisionMatches r = true := by
        unfold revisionMatches
        rw [hsum]
        exact hm
      obtain ⟨rid, hrid⟩ := Option.ne_none_iff_exists'.mp
        (hid r (List.mem_cons_self r rest) hrm)
      simp only [scanRevisions, hsum, hm, if_true, hrid]
      rw [ih rid hs' hid']
      unfold lastMatchId
      rw [List.filter_cons_of_pos hrm]
      cases hfr : rest.filter revisionMatches with
      | nil => simp [hrid]
      | cons x xs =>
        rw [List.getLast?_cons_cons]
        have hne : (x :: xs).getLast? = some ((x :: xs).getLast (by simp)) :=
          List.getLast?_eq_getLast_of_ne_nil (by simp)
        rw [hne]
        rfl
    | false =>
      have hrm : revisionMatches r = false := by
        unfold revisionMatches
        rw [hsum]
        exact hm
      simp only [scanRevisions, hsum, hm, Bool.false_eq_true, if_false]
      rw [ih acc hs' hid']
      unfold lastMatchId
      rw [List.filter_cons_of_neg (by simp [hrm])]

/-- C2 (counterexample): two revisions both match
`Amazon S3 version id: ...`, yet the resolver returns `R2`, the id of
the SECOND (last) match, not the first match's id `R1` — the loop has
no `break`, so each match overwrites the previous one. -/
theorem historical_first_match_cex :
    revReMatch "Amazon S3 version id: R1" = true ∧
    revReMatch "Amazon S3 version id: R2" = true ∧
    scanRevisions [⟨some "R1", some "Amazon S3 version id: R1"⟩,
                   ⟨some "R2", some "Amazon S3 version id: R2"⟩] "" =
      .ok "R2" ∧
    ("R2" : String) ≠ "R1" := by
  exact ⟨rfl, rfl, rfl, by decide⟩

/-- C2 (amended): for every execution whose fetched artifact-revision
list matches the `Amazon S3 version id: ...` pattern at least once, the
Historical Revision Resolver returns the revision id of the LAST
matching revision in the order the list is received (every match
overwrites the previous one). -/
theorem historical_resolver_last_match (revs : List ArtifactRevision)
    (hs : ∀ r ∈ revs, r.revisionSummary ≠ none)
    (hid : ∀ r ∈ revs, revisionMatches r = true → r.revisionId ≠ none) :
    scanRevisions revs "" = .ok (lastMatchId revs "") ∧
    (∀ r, (revs.filter revisionMatches).getLast? = some r →
      lastMatchId revs "" = r.revisionId.getD "") := by
  refine ⟨scanRevisions_eq_lastMatchId revs "" hs hid, ?_⟩
  intro r hr
  unfold lastMatchId
  rw [hr]
  rfl

/-- Witness for C2's amended theorem at a one-revision list. -/
theorem historical_resolver_last_match_witness :
    scanRevisions [⟨some "R9", some "Amazon S3 version id: R9"⟩] "" =
      .ok (lastMatchId [⟨some "R9", some "Amazon S3 version id: R9"⟩] "") :=
  (historical_resolver_last_match _ (by decide) (by decide)).1

/-- C9: every run of the resolver that completes without a fatal error
produces exactly one DeploymentRecord per stage of the snapshot, with
the records in the same order as the stages. -/
theorem report_one_record_per_stage
    (fe : String → Except String PipelineExecution)
    (fm : String → Except String (List (String × String)))
    (stages : List StageState) (recs : List StageDetails) (log : List String)
    (h : runPipeline fe fm stages = .ok (recs, log)) :
    recs.length = stages.length ∧
    stages.map StageState.stageName = recs.map (fun d => some d.name) :=
  runStages_shape h

/-- Witness for C9 at a concrete completed run. -/
theorem report_one_record_per_stage_witness :
    ([⟨"A", "E1", "Succeeded", "R0", "1.0.0", "c0"⟩,
      ⟨"Source", "E1", "Succeeded", "R1", "1.0.0", "c0"⟩] :
        List StageDetails).length = cexStagesE1.length ∧
    cexStagesE1.map StageState.stageName =
      ([⟨"A", "E1", "Succeeded", "R0", "1.0.0", "c0"⟩,
        ⟨"Source", "E1", "Succeeded", "R1", "1.0.0", "c0"⟩] :
          List StageDetails).map (fun d => some d.name) :=
  report_one_record_per_stage cexExecE1 cexMetaC5 cexStagesE1 _ ["E1"] (by rfl)

/-- C5 (counterexample): stage `A` precedes the `Source` stage and its
execution id `E1` EQUALS the current epoch (the Source stage's latest
execution id, `E1`), yet the run issues one historical query — the
query log is `[E1]`, not `[]` — because `main` compares against the
`execId` variable, still empty when `A` is processed.  This refutes the
zero-queries-for-epoch-stages invariant for arbitrary snapshot order. -/
theorem call_count_order_cex :
    runPipeline cexExecE1 cexMetaC5 cexStagesE1 =
      .ok ([⟨"A", "E1", "Succeeded", "R0", "1.0.0", "c0"⟩,
            ⟨"Source", "E1", "Succeeded", "R1", "1.0.0", "c0"⟩], ["E1"]) := by
  rfl

/-- C5 (amended): when the `Source` stage is the FIRST stage of the
snapshot (and the only one so named), a completed run issues zero
historical queries for every stage whose execution id equals the
current epoch and exactly one for every other stage: the query log is
exactly the ordered list of execution ids of the non-epoch records. -/
theorem resolver_call_counts
    (fe : String → Except String PipelineExecution)
    (fm : String → Except String (List (String × String)))
    (src : StageState) (rest : List StageState)
    (d0 : StageDetails) (ds : List StageDetails) (log : List String)
    (hsrc : src.stageName = some "Source")
    (hrest : ∀ st ∈ rest, st.stageName ≠ some "Source")
    (h : runPipeline fe fm (src :: rest) = .ok (d0 :: ds, log)) :
    log = (ds.filter (fun d => d.executionId != d0.executionId)).map
            (fun d => d.executionId) := by
  unfold runPipeline runStages at h
  split at h
  · cases h
  · rename_i d s1 q hps
    split at h
    · cases h
    · rename_i ds' qs hrs
      simp only [Except.ok.injEq, Prod.mk.injEq, List.cons.injEq] at h
      obtain ⟨⟨hd0, hds⟩, hlog0⟩ := h
      subst hd0
      subst hds
      subst hlog0
      obtain ⟨hdname, hq, hs1, hscan⟩ := processStage_source hsrc hps
      subst hq
      subst hs1
      obtain ⟨hmap, hlog, hall⟩ := runStages_noSource hrest hrs
      simpa using hlog

/-- Witness for C5's amended theorem at a concrete Source-first run. -/
theorem resolver_call_counts_witness :
    (["E0"] : List String) =
      (([⟨"Deploy", "E0", "Succeeded", "R0", "2.3.0", "abc123"⟩] :
          List StageDetails).filter
        (fun d => d.executionId !=
          (⟨"Source", "E1", "Succeeded", "R1", "2.3.0", "abc123"⟩ :
            StageDetails).executionId)).map
        (fun d => d.executionId) :=
  resolver_call_counts witExecE0 cexMetaAll
    ⟨some "Source", [⟨some demoUrl, some ⟨some "R1"⟩⟩],
     some ⟨some "E1", some "Succeeded"⟩⟩
    [⟨some "Deploy", [], some ⟨some "E0", some "Succeeded"⟩⟩]
    ⟨"Source", "E1", "Succeeded", "R1", "2.3.0", "abc123"⟩
    [⟨"Deploy", "E0", "Succeeded", "R0", "2.3.0", "abc123"⟩]
    ["E0"] rfl (by simp) (by rfl)

/-- C1 (counterexample): stage `Deploy` precedes the `Source` stage and
has execution id `E2`, EQUAL to the source stage's latest execution id,
yet its revision id is resolved to `R0` by a historical query instead
of the live revision `R1` taken from the source action.  The claimed
biconditional therefore fails for stages placed before `Source` in the
snapshot. -/
theorem revision_iff_order_cex :
    runPipeline cexExecE2 cexMetaAll cexStagesE2 =
      .ok ([⟨"Deploy", "E2", "Succeeded", "R0", "2.3.0", "abc123"⟩,
            ⟨"Source", "E2", "Succeeded", "R1", "2.3.0", "abc123"⟩], ["E2"]) ∧
    ("R0" : String) ≠ "R1" := by
  exact ⟨rfl, by decide⟩

/-- C1 (amended): when the `Source` stage is the FIRST stage of the
snapshot (and the only one so named), a completed run gives the source
record the live revision extracted from the source actions, and every
later record's revision id is the live one if and only if its execution
id equals the epoch — otherwise it is resolved by querying that
record's own execution id. -/
theorem revision_assignment_after_source
    (fe : String → Except String PipelineExecution)
    (fm : String → Except String (List (String × String)))
    (src : StageState) (rest : List StageState)
    (d0 : StageDetails) (ds : List StageDetails) (log : List String)
    (hsrc : src.stageName = some "Source")
    (hrest : ∀ st ∈ rest, st.stageName ≠ some "Source")
    (h : runPipeline fe fm (src :: rest) = .ok (d0 :: ds, log)) :
    sourceScan src.actionStates "" = .ok d0.revisionId ∧
    ∀ d ∈ ds,
      (d.executionId = d0.executionId → d.revisionId = d0.revisionId) ∧
      (d.executionId ≠ d0.executionId →
        ∃ pe, fe d.executionId = .ok pe ∧
          scanRevisions pe.artifactRevisions "" = .ok d.revisionId) := by
  unfold runPipeline runStages at h
  split at h
  · cases h
  · rename_i d s1 q hps
    split at h
    · cases h
    · rename_i ds' qs hrs
      simp only [Except.ok.injEq, Prod.mk.injEq, List.cons.injEq] at h
      obtain ⟨⟨hd0, hds⟩, hlog0⟩ := h
      subst hd0
      subst hds
      subst hlog0
      obtain ⟨hdname, hq, hs1, hscan⟩ := processStage_source hsrc hps
      subst hs1
      obtain ⟨hmap, hlog, hall⟩ := runStages_noSource hrest hrs
      refine ⟨hscan, ?_⟩
      intro d' hd'
      have hthis := hall d' hd'
      simpa using hthis

/-- Witness for C1's amended theorem: the source record carries the
live revision `R1` extracted from its matching action. -/
theorem revision_assignment_after_source_witness :
    sourceScan [⟨some demoUrl, some ⟨some "R1"⟩⟩] "" = .ok "R1" :=
  (revision_assignment_after_source witExecE0 cexMetaAll
    ⟨some "Source", [⟨some demoUrl, some ⟨some "R1"⟩⟩],
     some ⟨some "E1", some "Succeeded"⟩⟩
    [⟨some "Deploy", [], some ⟨some "E0", some "Succeeded"⟩⟩]
    ⟨"Source", "E1", "Succeeded", "R1", "2.3.0", "abc123"⟩
    [⟨"Deploy", "E0", "Succeeded", "R0", "2.3.0", "abc123"⟩]
    ["E0"] rfl (by simp) (by rfl)).1

/-- C3 (counterexample): the `Source` stage has no matching action, so
the current-epoch revision id stays empty; the metadata lookup for the
empty revision id is NOT skipped — it is attempted, and when `HeadObject`
succeeds with metadata lacking `Version` the program panics
(`Failure.nilDeref`) instead of reporting a MetadataMissing-class
error. -/
theorem resolution_miss_panic_cex :
    runPipeline cexExecE1 cexMetaNoVersion
      [⟨some "Source", [], some ⟨some "E1", some "Succeeded"⟩⟩] =
      .error .nilDeref := by
  rfl

/-- C3 (amended): for a `Source` stage none of whose action URLs match,
the stage's revision id remains empty and the downstream metadata
lookup is still ATTEMPTED with the empty revision id: if the external
fetch fails, the program exits with a descriptive lookup error; if the
fetch succeeds but the metadata lacks the required `Version` field, the
program panics with a nil-pointer dereference. -/
theorem resolution_miss_downstream
    (fe : String → Except String PipelineExecution)
    (fm : String → Except String (List (String × String)))
    (st : StageState) (e status : String)
    (hname : st.stageName = some "Source")
    (hurl : ∀ a ∈ st.actionStates, a.entityUrl ≠ none)
    (hmiss : st.actionStates.find? actionMatches = none)
    (hle : st.latestExecution = some ⟨some e, some status⟩) :
    (∀ m, fm "" = .error m →
      processStage fe fm ⟨"", ""⟩ st =
        .error (.metadataError ("get metadata from file revision: " ++
          ("failed to retrieve version metadata: " ++ m)))) ∧
    (∀ meta, fm "" = .ok meta → meta.lookup "Version" = none →
      processStage fe fm ⟨"", ""⟩ st = .error .nilDeref) := by
  have hscan : sourceScan st.actionStates "" = .ok "" :=
    sourceScan_no_match hurl hmiss
  have hsrc : srcUpdate ⟨"", ""⟩ st "Source" = .ok ⟨e, ""⟩ := by
    unfold srcUpdate
    rw [if_pos (by simp)]
    simp [hscan, epochOf, hle]
  have hids : stageIds st = .ok (e, status) := by
    simp [stageIds, hle]
  have hrr : resolveRevision fe ⟨e, ""⟩ e = .ok ("", []) := by
    unfold resolveRevision
    rw [if_pos (by simp)]
  constructor
  · intro m hm
    simp [processStage, hname, hsrc, hids, hrr, metaFields,
      getMetadataFromRevision, hm]
  · intro meta hm hv
    simp [processStage, hname, hsrc, hids, hrr, metaFields,
      getMetadataFromRevision, hm, hv]

/-- Witness for C3's amended theorem: with a failing `HeadObject` the
run aborts with the wrapped lookup error for the empty revision id. -/
theorem resolution_miss_downstream_witness :
    processStage cexExecE1 errMeta ⟨"", ""⟩
      ⟨some "Source", [], some ⟨some "E1", some "Succeeded"⟩⟩ =
      .error (.metadataError ("get metadata from file revision: " ++
        ("failed to retrieve version metadata: " ++ "AccessDenied"))) :=
  (resolution_miss_downstream cexExecE1 errMeta
    ⟨some "Source", [], some ⟨some "E1", some "Succeeded"⟩⟩ "E1" "Succeeded"
    rfl (by simp) rfl rfl).1 "AccessDenied" rfl

end Verdeployed
